import Mathlib

/-!
Verification of the Path Integral Sampler (PIS) components of the engine:
a shallow embedding, in Lean 4, of

  * the numerically stable softmax (class SoftmaxCalculator),
  * the simple controller (class SimplePathIntegralController): both
    SelectMove overloads, the sample-count integrity gate, the sampling
    pipeline and the configuration update,
  * the performance monitor (class PathIntegralPerformanceMonitor) as a
    state machine over its operations, and
  * the verifier predicate ValidateSampleCounts.

Numeric model: C++ `float`/`double` values are modelled as real numbers
(`ℝ`) for the softmax / controller and as rationals (`ℚ`) for the purely
arithmetic performance monitor and verifier.  A `float` that may be
non-finite (NaN or an infinity) is modelled by the inductive type `FVal`;
once validation has established finiteness the payload real is used.  In
the real-number model every arithmetic result is finite, so the defensive
`std::isfinite` re-checks that the C++ source performs *after* input
validation (on the maximum, on the log-sum-exp and on the output
probabilities) are identically true and the corresponding fallbacks are
unreachable; the reachable fallback paths (input validation, lambda range,
and the `sum_exp <= 0` guard inside `CalculateLogSumExp`) are kept
verbatim.  C++ exceptions are modelled by explicit outcome values; Lean
functions are total, which renders the "never throws" guarantees.
-/

/-- Model of a C++ `float` value: either a finite real or one of the
non-finite values (NaN, +inf, -inf), which `std::isfinite` rejects. -/
inductive FVal where
  | fin (x : ℝ)
  | nan
  | posInf
  | negInf

/-- Model of `std::isfinite` on an `FVal`. -/
def FVal.isFinite : FVal → Bool
  | .fin _ => true
  | _ => false

/-- The real payload of a finite `FVal` (junk value 0 for non-finite
values, which every use below guards behind a finiteness check). -/
def FVal.val : FVal → ℝ
  | .fin x => x
  | _ => 0

/-- SoftmaxCalculator::IsValidInput: the scores vector is non-empty, no
longer than kMaxScoreArraySize = 1000000, and all elements are finite. -/
def IsValidInput (scores : List FVal) : Bool :=
  !scores.isEmpty && decide (scores.length ≤ 1000000) && scores.all FVal.isFinite

/-- SoftmaxCalculator::UniformProbabilities: the empty vector for count 0,
otherwise `count` copies of `1 / count`. -/
noncomputable def UniformProbabilities (count : ℕ) : List ℝ :=
  List.replicate count (1 / (count : ℝ))

/-- Value of `*std::max_element(scores.begin(), scores.end())` for a
non-empty vector (junk value 0 on the empty vector, on which the C++ call
would be undefined; every caller below has already excluded it). -/
noncomputable def maxScore : List ℝ → ℝ
  | [] => 0
  | x :: xs => xs.foldl max x

/-- The clamp `std::max(kMinExpArg, std::min(kMaxExpArg, scaled))` with
kMinExpArg = -700 and kMaxExpArg = 700. -/
noncomputable def clampExpArg (x : ℝ) : ℝ :=
  max (-700) (min 700 x)

/-- SoftmaxCalculator::CalculateLogSumExp: sum of exponentials of the
scaled scores; the guard `sum_exp <= 0` returns the safe default 0,
otherwise the natural logarithm of the sum. -/
noncomputable def CalculateLogSumExp (scaled_scores : List ℝ) : ℝ :=
  let sum_exp := (scaled_scores.map Real.exp).sum
  if sum_exp ≤ 0 then 0 else Real.log sum_exp

/-- SoftmaxCalculator::CalculateSoftmax.  Validation failure (invalid
scores vector, or lambda outside [kMinLambda, kMaxLambda] = [0.001, 10])
falls back to the uniform distribution; otherwise scores are shifted by
the maximum, scaled by lambda, clamped to [-700, 700], and exponentiated
against the log-sum-exp. -/
noncomputable def CalculateSoftmax (scores : List FVal) (lambda : ℝ) : List ℝ :=
  if IsValidInput scores = false ∨ lambda < 0.001 ∨ 10 < lambda then
    UniformProbabilities scores.length
  else
    let xs := scores.map FVal.val
    let max_score := maxScore xs
    let scaled_scores := xs.map (fun s => clampExpArg ((s - max_score) * lambda))
    let log_sum_exp := CalculateLogSumExp scaled_scores
    scaled_scores.map (fun s => Real.exp (s - log_sum_exp))

/-- PathIntegralRewardMode: policy / cp_score / hybrid. -/
inductive RewardMode where
  | kPolicy
  | kCpScore
  | kHybrid
deriving DecidableEq

/-- PathIntegralSamplingMode: competitive / quantum_limit. -/
inductive SamplingMode where
  | kCompetitive
  | kQuantumLimit
deriving DecidableEq

/-- PathIntegralConfig (the fields the simple controller consults). -/
structure Config where
  lambda : ℝ
  samples : ℤ
  reward_mode : RewardMode
  sampling_mode : SamplingMode
  enabled : Bool
  debug_logging : Bool
  metrics_file : String

/-- PathIntegralConfig::ParseRewardMode. -/
def ParseRewardMode (mode_str : String) : RewardMode :=
  if mode_str = "policy" then .kPolicy
  else if mode_str = "cp_score" then .kCpScore
  else .kHybrid

/-- PathIntegralConfig::ParseSamplingMode. -/
def ParseSamplingMode (mode_str : String) : SamplingMode :=
  if mode_str = "competitive" then .kCompetitive
  else if mode_str = "quantum_limit" then .kQuantumLimit
  else .kCompetitive

/-- PathIntegralConfig::SetDefaults: lambda 0.1, samples 50, hybrid,
competitive, disabled, no debug logging. -/
noncomputable def SetDefaultsConfig : Config :=
  ⟨0.1, 50, .kHybrid, .kCompetitive, false, false, ""⟩

/-- The values read from the UCI options bag by
SimplePathIntegralController::UpdateConfigFromOptions. -/
structure OptsBag where
  lambda : ℝ
  samples : ℤ
  reward_mode : String
  mode : String
  debug : Bool
  metrics_file : String

/-- SimplePathIntegralController::UpdateConfigFromOptions.  `some o` is a
bag on which every `options.Get` succeeds; `none` models a bag on which a
`Get` call throws, in which case the catch block restores the defaults and
disables the controller.  On success the enabled flag is derived as
`lambda > 0 && samples > 0`. -/
noncomputable def UpdateConfigFromOptions (opts : Option OptsBag) (c : Config) : Config :=
  match opts with
  | some o =>
      { c with
        lambda := o.lambda
        samples := o.samples
        reward_mode := ParseRewardMode o.reward_mode
        sampling_mode := ParseSamplingMode o.mode
        debug_logging := o.debug
        metrics_file := o.metrics_file
        enabled := if 0 < o.lambda ∧ 0 < o.samples then true else false }
  | none => { SetDefaultsConfig with enabled := false }

/-- Tail of the first-maximum scan: `b` is the best value so far, `best`
its index, `i` the index of the head of the remaining list.  An element
updates the best only when strictly greater, as in the C++ loop
`if (probabilities[i] > best_prob)` and in `std::max_element`. -/
noncomputable def argmaxGo : List ℝ → ℝ → ℕ → ℕ → ℕ
  | [], _, best, _ => best
  | y :: ys, b, best, i => if b < y then argmaxGo ys y i (i + 1) else argmaxGo ys b best (i + 1)

/-- Index of the first maximal element of a vector of probabilities
(semantics of both the explicit highest-probability loop in
SelectMoveFromSampling and the `std::max_element` call in the score-in
SelectMove overload); 0 on the empty list. -/
noncomputable def argmaxIdx : List ℝ → ℕ
  | [] => 0
  | x :: xs => argmaxGo xs x 0 1

/-- Inverse-CDF walk over a weights vector: consume the draw value `t`
weight by weight, returning the index of the bucket `t` lands in (the
index `w.length` when `t` lies at or beyond the total weight). -/
noncomputable def invCDF : List ℝ → ℝ → ℕ
  | [], _ => 0
  | x :: xs, t => if t < x then 0 else invCDF xs (t - x) + 1

/-- Model of `std::discrete_distribution(w.begin(), w.end())` applied to
one uniform draw `u` from [0, 1): the returned index is distributed with
probability `w[i] / sum(w)`, realized by the inverse-CDF walk at the draw
value `u * sum(w)`. -/
noncomputable def discreteDraw (w : List ℝ) (u : ℝ) : ℕ :=
  invCDF w (u * w.sum)

/-- Sum of the first `i` weights. -/
noncomputable def prefixSum (w : List ℝ) (i : ℕ) : ℝ :=
  (w.take i).sum

/-- The score-in second SelectMove overload,
SimplePathIntegralController::SelectMove(legal_moves, move_scores,
position).  Moves are identified by natural numbers; the null move
`Move()` is `none`.  `u` is the uniform draw in [0, 1) consumed by the
`std::discrete_distribution` in the competitive branch (the fresh
`std::mt19937` seeded from `std::random_device`); the non-competitive
branch ignores it and takes the first maximal probability. -/
noncomputable def SelectMoveScored (cfg : Config) (legal_moves : List ℕ)
    (move_scores : List FVal) (u : ℝ) : Option ℕ :=
  if cfg.enabled = false ∨ legal_moves.isEmpty = true ∨ move_scores.isEmpty = true then
    none
  else if legal_moves.length ≠ move_scores.length then
    none
  else
    let probabilities := CalculateSoftmax move_scores cfg.lambda
    if cfg.sampling_mode = SamplingMode.kCompetitive then
      legal_moves[discreteDraw probabilities u]?
    else
      legal_moves[argmaxIdx probabilities]?

/-- Outcome of one EvaluateMove (or reward-mode evaluation) call: a
returned float, or a thrown exception that the per-sample try/catch
swallows. -/
inductive EvalOutcome where
  | ok (score : FVal)
  | exn

/-- One log line relevant to the integrity gate (the unconditional CERR
stream; the debug-logger mirrors of these lines are gated on
debug_logging and carry the same severities). -/
inductive LogLevel where
  | error
  | warning
  | info
deriving DecidableEq

/-- SimplePathIntegralController::ValidateSampleCountIntegrity.  Returns
the pass/fail flag together with the emitted log severities, in order:
`samples <= 0` is a hard error, more than MAX_SAMPLES_PER_MOVE = 10000
samples per move is a warning, no legal moves is a hard error, more than
MAX_TOTAL_SAMPLES = 100000 total samples is a warning. -/
def ValidateSampleCountIntegrity (requested_samples legal_move_count : ℤ) :
    Bool × List LogLevel :=
  if requested_samples ≤ 0 then
    (false, [.error])
  else
    let warns1 : List LogLevel :=
      if 10000 < requested_samples then [.warning] else []
    if legal_move_count ≤ 0 then
      (false, warns1 ++ [.error])
    else
      let total_samples := requested_samples * legal_move_count
      let warns2 : List LogLevel :=
        if 100000 < total_samples then [.warning] else []
      (true, warns1 ++ warns2)

/-- The per-move inner sampling loop (`for sample < config_.samples`):
each draw either throws (skipped), returns a non-finite score (skipped by
the `std::isfinite` check), or returns a finite score that is accumulated
into the running total and the valid-sample count. -/
noncomputable def sampleMove (samples : ℕ) (oc : ℕ → EvalOutcome) : ℝ × ℕ :=
  (List.range samples).foldl
    (fun acc j =>
      match oc j with
      | .ok (.fin x) => (acc.1 + x, acc.2 + 1)
      | _ => acc)
    (0, 0)

/-- SimplePathIntegralController::SampleResult. -/
structure SampleRes where
  move : ℕ
  score : ℝ
  probability : ℝ

/-- SimplePathIntegralController::PerformRootNodeSampling.  The oracle
`oc i j` is the outcome of the j-th EvaluateMove draw for the i-th legal
move (backend, cache, heuristic and timing effects are external).  On
integrity-gate failure the empty result vector is returned; otherwise a
move contributes a result (with its averaged score) only when it retained
at least one valid sample. -/
noncomputable def PerformRootNodeSampling (cfg : Config) (legal_moves : List ℕ)
    (oc : ℕ → ℕ → EvalOutcome) : List SampleRes :=
  if (ValidateSampleCountIntegrity cfg.samples (legal_moves.length : ℤ)).1 = false then
    []
  else
    legal_moves.enum.foldl
      (fun results p =>
        let t := sampleMove cfg.samples.toNat (oc p.1)
        if 0 < t.2 then results ++ [⟨p.2, t.1 / (t.2 : ℝ), 0⟩] else results)
      []

/-- SimplePathIntegralController::PerformQuantumLimitSampling: same
skeleton as PerformRootNodeSampling, with the per-draw score produced by
the configured reward mode (policy / cp_score / hybrid), here externalized
into the oracle `qoc`. -/
noncomputable def PerformQuantumLimitSampling (cfg : Config) (legal_moves : List ℕ)
    (qoc : ℕ → ℕ → EvalOutcome) : List SampleRes :=
  if (ValidateSampleCountIntegrity cfg.samples (legal_moves.length : ℤ)).1 = false then
    []
  else
    legal_moves.enum.foldl
      (fun results p =>
        let t := sampleMove cfg.samples.toNat (qoc p.1)
        if 0 < t.2 then results ++ [⟨p.2, t.1 / (t.2 : ℝ), 0⟩] else results)
      []

/-- SimplePathIntegralController::SelectMoveFromSampling: softmax over the
averaged scores, then the move of highest probability (deterministic
first-argmax). -/
noncomputable def SelectMoveFromSampling (cfg : Config) (results : List SampleRes) :
    Option ℕ :=
  if results.isEmpty = true then
    none
  else
    let scores := results.map (fun r => FVal.fin r.score)
    let probabilities := CalculateSoftmax scores cfg.lambda
    if probabilities.length ≠ results.length then
      none
    else
      (results[argmaxIdx probabilities]?).map SampleRes.move

/-- SimplePathIntegralController::HandleCompetitiveMode. -/
noncomputable def HandleCompetitiveMode (cfg : Config) (legal_moves : List ℕ)
    (oc : ℕ → ℕ → EvalOutcome) : Option ℕ :=
  if legal_moves.isEmpty = true then
    none
  else
    let results := PerformRootNodeSampling cfg legal_moves oc
    if results.isEmpty = true then none
    else SelectMoveFromSampling cfg results

/-- SimplePathIntegralController::HandleQuantumLimitMode. -/
noncomputable def HandleQuantumLimitMode (cfg : Config) (legal_moves : List ℕ)
    (qoc : ℕ → ℕ → EvalOutcome) : Option ℕ :=
  if legal_moves.isEmpty = true then
    none
  else
    let results := PerformQuantumLimitSampling cfg legal_moves qoc
    if results.isEmpty = true then none
    else SelectMoveFromSampling cfg results

/-- The first SelectMove overload,
SimplePathIntegralController::SelectMove(position, limits): null move when
the controller is disabled, otherwise the configured sampling mode runs
(the position is represented by its legal moves and the evaluation
oracles; SearchLimits is plumbed through but never consulted). -/
noncomputable def SelectMove (cfg : Config) (legal_moves : List ℕ)
    (oc qoc : ℕ → ℕ → EvalOutcome) : Option ℕ :=
  if cfg.enabled = false then
    none
  else
    match cfg.sampling_mode with
    | .kCompetitive => HandleCompetitiveMode cfg legal_moves oc
    | .kQuantumLimit => HandleQuantumLimitMode cfg legal_moves qoc

/-- PathIntegralPerformanceMonitor::SamplingMetrics.  Counters are
integers; times are rationals (the double arithmetic involved is exact
field arithmetic). -/
structure SamplingMetrics where
  requested_samples : ℤ
  actual_samples : ℤ
  neural_net_evaluations : ℤ
  cached_evaluations : ℤ
  heuristic_evaluations : ℤ
  total_time_ms : ℚ
  avg_time_per_sample_ms : ℚ
  neural_net_time_ms : ℚ
  samples_per_second : ℚ

/-- SamplingMetrics::Reset: everything to zero. -/
def SamplingMetricsReset : SamplingMetrics :=
  ⟨0, 0, 0, 0, 0, 0, 0, 0, 0⟩

/-- SamplingMetrics::CalculateDerivedMetrics: the average time per sample
is `total_time_ms / actual_samples` when `actual_samples > 0` and 0
otherwise; the throughput is `actual_samples * 1000 / total_time_ms` when
`total_time_ms > 0` and 0 otherwise. -/
def CalculateDerivedMetrics (m : SamplingMetrics) : SamplingMetrics :=
  { m with
    avg_time_per_sample_ms :=
      if 0 < m.actual_samples then m.total_time_ms / (m.actual_samples : ℚ) else 0
    samples_per_second :=
      if 0 < m.total_time_ms then ((m.actual_samples : ℚ) * 1000) / m.total_time_ms else 0 }

/-- The state of a PathIntegralPerformanceMonitor: its metrics, the
session start time, the enabled flag and the atomic sampling-active
flag. -/
structure Monitor where
  metrics : SamplingMetrics
  start_time : ℚ
  enabled : Bool
  sampling_active : Bool

/-- A freshly constructed monitor: metrics reset, enabled, inactive. -/
def MonitorInit : Monitor :=
  ⟨SamplingMetricsReset, 0, true, false⟩

/-- The monitor operations named by the spec.  Clock readings
(`now`, in milliseconds) are parameters of the operations that consult
the clock. -/
inductive MonOp where
  | startSampling (requested_samples : ℤ) (now : ℚ)
  | recordSample (eval_method : String) (time_ms : ℚ)
  | recordNeuralNetEvaluation (time_ms : ℚ)
  | recordCachedEvaluation
  | recordHeuristicEvaluation
  | endSampling (now : ℚ)

/-- One step of the monitor.  StartSampling resets the metrics, stores the
requested count and start time and activates the session.  RecordSample
(when enabled and active) increments actual_samples and exactly one
bucket chosen by the eval_method string, unknown methods defaulting to
neural_network.  The three direct helpers increment only their bucket
(and, for the neural-net one, its time).  EndSampling stores the elapsed
time, computes the derived metrics and deactivates the session.
Operations while disabled or (for the recording operations) while no
session is active are ignored. -/
def monApply (m : Monitor) : MonOp → Monitor
  | .startSampling n now =>
      if m.enabled = false then m
      else
        { m with
          metrics := { SamplingMetricsReset with requested_samples := n }
          start_time := now
          sampling_active := true }
  | .recordSample eval_method t =>
      if m.enabled = false ∨ m.sampling_active = false then m
      else
        let mm := { m.metrics with actual_samples := m.metrics.actual_samples + 1 }
        let mm2 :=
          if eval_method = "neural_network" ∨ eval_method = "neural_net" then
            { mm with
              neural_net_evaluations := mm.neural_net_evaluations + 1
              neural_net_time_ms := mm.neural_net_time_ms + t }
          else if eval_method = "cached" ∨ eval_method = "cache" then
            { mm with cached_evaluations := mm.cached_evaluations + 1 }
          else if eval_method = "heuristic" then
            { mm with heuristic_evaluations := mm.heuristic_evaluations + 1 }
          else
            { mm with
              neural_net_evaluations := mm.neural_net_evaluations + 1
              neural_net_time_ms := mm.neural_net_time_ms + t }
        { m with metrics := mm2 }
  | .recordNeuralNetEvaluation t =>
      if m.enabled = false ∨ m.sampling_active = false then m
      else
        { m with metrics := { m.metrics with
            neural_net_evaluations := m.metrics.neural_net_evaluations + 1
            neural_net_time_ms := m.metrics.neural_net_time_ms + t } }
  | .recordCachedEvaluation =>
      if m.enabled = false ∨ m.sampling_active = false then m
      else
        { m with metrics := { m.metrics with
            cached_evaluations := m.metrics.cached_evaluations + 1 } }
  | .recordHeuristicEvaluation =>
      if m.enabled = false ∨ m.sampling_active = false then m
      else
        { m with metrics := { m.metrics with
            heuristic_evaluations := m.metrics.heuristic_evaluations + 1 } }
  | .endSampling now =>
      if m.enabled = false ∨ m.sampling_active = false then m
      else
        { m with
          metrics := CalculateDerivedMetrics
            { m.metrics with total_time_ms := now - m.start_time }
          sampling_active := false }

/-- Run a sequence of monitor operations from the freshly constructed
monitor. -/
def monRun (ops : List MonOp) : Monitor :=
  ops.foldl monApply MonitorInit

/-- The operations of the documented sampling API: StartSampling,
RecordSample, EndSampling (as opposed to the three direct
bucket-increment helpers). -/
def MonOp.isSampleApi : MonOp → Bool
  | .startSampling _ _ => true
  | .recordSample _ _ => true
  | .endSampling _ => true
  | _ => false

/-- The bucket-accounting invariant claimed of the monitor. -/
def CountsConsistent (sm : SamplingMetrics) : Prop :=
  sm.actual_samples =
    sm.neural_net_evaluations + sm.cached_evaluations + sm.heuristic_evaluations

/-- PathIntegralSamplingVerifier::ValidateSampleCounts.  Equality passes
outright; otherwise the absolute deviation must stay within
`max(int(requested * 0.05), 1)`.  For every `int` value of
`requested_samples`, the double computation
`static_cast<int>(requested_samples * (5.0 / 100.0))` yields exactly the
toward-zero truncation of `requested_samples / 20`: writing requested =
20k + j, the exact product is requested/20 + requested * d where
d = 0.05(double) - 1/20 = 2^-54/20 is below half an ulp of k, so the
rounded product never crosses an integer boundary.  It is therefore
embedded as `Int.tdiv requested_samples 20`. -/
def ValidateSampleCounts (metrics_actual_samples requested_samples : ℤ) : Bool :=
  if metrics_actual_samples = requested_samples then true
  else
    decide (|metrics_actual_samples - requested_samples| ≤
      max (Int.tdiv requested_samples 20) 1)

/-- A concrete enabled configuration in competitive mode (lambda 1,
1 sample per move), used to instantiate the universally quantified
theorems below. -/
noncomputable def cfgCompetitive : Config :=
  ⟨1, 1, .kHybrid, .kCompetitive, true, false, ""⟩

/-- A concrete enabled configuration in quantum-limit mode (lambda 1,
1 sample per move). -/
noncomputable def cfgQuantum : Config :=
  ⟨1, 1, .kHybrid, .kQuantumLimit, true, false, ""⟩

lemma map_val_map_fin (xs : List ℝ) :
    (xs.map FVal.fin).map FVal.val = xs := by
  simp [List.map_map, Function.comp_def, FVal.val]

lemma isValidInput_map_fin (xs : List ℝ) (hne : xs ≠ [])
    (hlen : xs.length ≤ 1000000) :
    IsValidInput (xs.map FVal.fin) = true := by
  simp [IsValidInput, List.all_eq_true, FVal.isFinite, hlen,
    List.isEmpty_iff, hne]

/-- On a valid call, CalculateSoftmax is the map of the pointwise
shift-scale-clamp-exponentiate transform over the scores. -/
lemma calculateSoftmax_valid (xs : List ℝ) (lambda : ℝ) (hne : xs ≠ [])
    (hlen : xs.length ≤ 1000000) (hl1 : 0.001 ≤ lambda) (hl2 : lambda ≤ 10) :
    CalculateSoftmax (xs.map FVal.fin) lambda =
      xs.map (fun s => Real.exp (clampExpArg ((s - maxScore xs) * lambda) -
        CalculateLogSumExp (xs.map
          (fun s => clampExpArg ((s - maxScore xs) * lambda))))) := by
  have hval := isValidInput_map_fin xs hne hlen
  have hcond : ¬ (IsValidInput (xs.map FVal.fin) = false ∨
      lambda < 0.001 ∨ 10 < lambda) := by
    push_neg
    exact ⟨by simp [hval], hl1, hl2⟩
  rw [CalculateSoftmax, if_neg hcond, map_val_map_fin]
  simp [List.map_map, Function.comp_def]

lemma foldl_max_init_le (l : List ℝ) : ∀ a : ℝ, a ≤ l.foldl max a := by
  induction l with
  | nil => intro a; exact le_refl a
  | cons y ys ih =>
      intro a
      exact le_trans (le_max_left a y) (by simpa using ih (max a y))

lemma mem_le_foldl_max (l : List ℝ) :
    ∀ (a x : ℝ), x ∈ l → x ≤ l.foldl max a := by
  induction l with
  | nil => intro a x hx; cases hx
  | cons y ys ih =>
      intro a x hx
      rcases List.mem_cons.mp hx with h | h
      · subst h
        exact le_trans (le_max_right a x) (by simpa using foldl_max_init_le ys (max a x))
      · simpa using ih (max a y) x h

/-- Every element of a non-empty list is bounded by its maxScore. -/
lemma le_maxScore {l : List ℝ} {x : ℝ} (hx : x ∈ l) : x ≤ maxScore l := by
  cases l with
  | nil => cases hx
  | cons y ys =>
      rcases List.mem_cons.mp hx with h | h
      · subst h; exact foldl_max_init_le ys x
      · exact mem_le_foldl_max ys y x h

lemma clampExpArg_eq_self {x : ℝ} (h1 : -700 ≤ x) (h2 : x ≤ 700) :
    clampExpArg x = x := by
  rw [clampExpArg, min_eq_right h2, max_eq_right h1]

/-- C9: the Verifier's samples_match_requested flag is true exactly when
the absolute deviation of the actual from the requested sample count is
within max(1, 5% of requested truncated to an integer). -/
theorem c9_sample_count_tolerance (actual requested : ℤ) :
    ValidateSampleCounts actual requested = true ↔
      |actual - requested| ≤ max 1 (Int.tdiv requested 20) := by
  unfold ValidateSampleCounts
  by_cases h : actual = requested
  · subst h
    have h0 : (0 : ℤ) ≤ max 1 (Int.tdiv actual 20) :=
      le_trans zero_le_one (le_max_left _ _)
    simp [h0]
  · simp only [if_neg h, decide_eq_true_eq]
    rw [max_comm]

/-- C7: the integrity gate fails exactly when the requested per-move
sample count is nonpositive or there are no legal moves, in which case the
sampling step yields an empty result set and the competitive handler
returns the null move; a per-move count above 10000, or a total above
100000, passes the gate with a warning. -/
theorem c7_integrity_gate (s c : ℤ) (cfg : Config) (moves : List ℕ)
    (oc : ℕ → ℕ → EvalOutcome) :
    ((ValidateSampleCountIntegrity s c).1 = false ↔ (s ≤ 0 ∨ c ≤ 0))
    ∧ (0 < s → 0 < c → (10000 < s ∨ 100000 < s * c) →
        (ValidateSampleCountIntegrity s c).1 = true ∧
        LogLevel.warning ∈ (ValidateSampleCountIntegrity s c).2)
    ∧ (cfg.samples ≤ 0 ∨ moves = [] →
        PerformRootNodeSampling cfg moves oc = [] ∧
        HandleCompetitiveMode cfg moves oc = none) := by
  have hgate : ∀ a b : ℤ, (ValidateSampleCountIntegrity a b).1 = false ↔ (a ≤ 0 ∨ b ≤ 0) := by
    intro a b
    unfold ValidateSampleCountIntegrity
    by_cases ha : a ≤ 0
    · simp [ha]
    · by_cases hb : b ≤ 0
      · simp [ha, hb]
      · simp [ha, hb]
  refine ⟨hgate s c, ?_, ?_⟩
  · intro hs hc hwarn
    unfold ValidateSampleCountIntegrity
    rw [if_neg (by omega), if_neg (by omega)]
    refine ⟨rfl, ?_⟩
    by_cases h1 : 10000 < s
    · simp [h1]
    · have h2 : 100000 < s * c := by tauto
      simp [h1, h2]
  · intro h
    have hprns : PerformRootNodeSampling cfg moves oc = [] := by
      unfold PerformRootNodeSampling
      rw [if_pos]
      rw [hgate]
      rcases h with h | h
      · exact Or.inl h
      · exact Or.inr (by simp [h])
    refine ⟨hprns, ?_⟩
    unfold HandleCompetitiveMode
    by_cases hm : moves.isEmpty = true
    · rw [if_pos hm]
    · rw [if_neg hm, hprns]
      simp

/-- Demonstration of c7_integrity_gate at concrete inputs: 20000 samples
per move with one legal move passes the gate with a warning, and a
configuration requesting 0 samples produces an empty result set and a
null move. -/
theorem c7_integrity_gate_witness :
    ((ValidateSampleCountIntegrity 0 5).1 = false ↔ ((0 : ℤ) ≤ 0 ∨ (5 : ℤ) ≤ 0))
    ∧ ((ValidateSampleCountIntegrity 20000 1).1 = true ∧
        LogLevel.warning ∈ (ValidateSampleCountIntegrity 20000 1).2)
    ∧ (PerformRootNodeSampling { cfgCompetitive with samples := 0 } [7] (fun _ _ => .exn) = []
        ∧ HandleCompetitiveMode { cfgCompetitive with samples := 0 } [7] (fun _ _ => .exn) = none) := by
  refine ⟨(c7_integrity_gate 0 5 cfgCompetitive [] (fun _ _ => .exn)).1, ?_, ?_⟩
  · exact (c7_integrity_gate 20000 1 cfgCompetitive [] (fun _ _ => .exn)).2.1
      (by norm_num) (by norm_num) (by norm_num)
  · exact (c7_integrity_gate 20000 1 { cfgCompetitive with samples := 0 } [7]
      (fun _ _ => .exn)).2.2 (Or.inl (by norm_num))

/-- C10: for an enabled configuration, the score-in SelectMove overload
returns the null move as soon as the legal-move list and the score vector
have different lengths or either is empty (these guards precede the
softmax computation and any selection). -/
theorem c10_scored_overload_guards (cfg : Config) (moves : List ℕ)
    (scores : List FVal) (u : ℝ) (hen : cfg.enabled = true)
    (h : moves.length ≠ scores.length ∨ moves = [] ∨ scores = []) :
    SelectMoveScored cfg moves scores u = none := by
  unfold SelectMoveScored
  rcases h with h | h | h
  · by_cases h1 : cfg.enabled = false ∨ moves.isEmpty = true ∨ scores.isEmpty = true
    · rw [if_pos h1]
    · rw [if_neg h1, if_pos h]
  · rw [if_pos (Or.inr (Or.inl (by simp [h])))]
  · rw [if_pos (Or.inr (Or.inr (by simp [h])))]

/-- Demonstration of c10_scored_overload_guards: an enabled competitive
configuration with two moves but a single score returns the null move. -/
theorem c10_scored_overload_guards_witness :
    cfgCompetitive.enabled = true ∧
    SelectMoveScored cfgCompetitive [1, 2] [FVal.fin 0] 0 = none := by
  refine ⟨rfl, ?_⟩
  exact c10_scored_overload_guards cfgCompetitive [1, 2] [FVal.fin 0] 0 rfl
    (Or.inl (by simp))

/-- C6: after a configuration update on which every options read succeeds,
the enabled flag is exactly (lambda > 0 and samples > 0); and a disabled
controller returns the null move from SelectMove without sampling. -/
theorem c6_enablement (o : OptsBag) (c cfg : Config) (moves : List ℕ)
    (oc qoc : ℕ → ℕ → EvalOutcome) (hdis : cfg.enabled = false) :
    ((UpdateConfigFromOptions (some o) c).enabled = true ↔
      (0 < o.lambda ∧ 0 < o.samples))
    ∧ SelectMove cfg moves oc qoc = none := by
  constructor
  · by_cases hP : 0 < o.lambda ∧ 0 < o.samples
    · simp [UpdateConfigFromOptions, hP]
    · simp [UpdateConfigFromOptions, hP]
  · simp [SelectMove, hdis]

/-- Demonstration of c6_enablement: the default options values (lambda
0.1, samples 50) enable the controller, and the default (disabled)
configuration selects the null move. -/
theorem c6_enablement_witness :
    ((UpdateConfigFromOptions
        (some ⟨0.1, 50, "hybrid", "competitive", false, ""⟩)
        SetDefaultsConfig).enabled = true ↔
      (0 < (0.1 : ℝ) ∧ 0 < (50 : ℤ)))
    ∧ SelectMove SetDefaultsConfig [1, 2] (fun _ _ => .exn) (fun _ _ => .exn) = none :=
  c6_enablement ⟨0.1, 50, "hybrid", "competitive", false, ""⟩ SetDefaultsConfig
    SetDefaultsConfig [1, 2] (fun _ _ => .exn) (fun _ _ => .exn) rfl

lemma monApply_preserves_counts (m : Monitor) (op : MonOp)
    (hop : op.isSampleApi = true) (h : CountsConsistent m.metrics) :
    CountsConsistent (monApply m op).metrics := by
  cases op with
  | startSampling n now =>
      by_cases he : m.enabled = false
      · simpa [monApply, he] using h
      · simp [monApply, he, CountsConsistent, SamplingMetricsReset]
  | recordSample eval_method t =>
      by_cases he : m.enabled = false ∨ m.sampling_active = false
      · simpa [monApply, if_pos he] using h
      · rw [monApply, if_neg he]
        by_cases h1 : eval_method = "neural_network" ∨ eval_method = "neural_net"
        · simp only [CountsConsistent] at h ⊢
          simp [h1]
          omega
        · by_cases h2 : eval_method = "cached" ∨ eval_method = "cache"
          · simp only [CountsConsistent] at h ⊢
            simp [h1, h2]
            omega
          · by_cases h3 : eval_method = "heuristic"
            · simp only [CountsConsistent] at h ⊢
              simp [h1, h2, h3]
              omega
            · simp only [CountsConsistent] at h ⊢
              simp [h1, h2, h3]
              omega
  | recordNeuralNetEvaluation t => exact absurd hop (by simp [MonOp.isSampleApi])
  | recordCachedEvaluation => exact absurd hop (by simp [MonOp.isSampleApi])
  | recordHeuristicEvaluation => exact absurd hop (by simp [MonOp.isSampleApi])
  | endSampling now =>
      by_cases he : m.enabled = false ∨ m.sampling_active = false
      · simpa [monApply, if_pos he] using h
      · simp only [monApply, if_neg he]
        simpa [CountsConsistent, CalculateDerivedMetrics] using h

/-- C2 (amended): over every sequence of operations of the documented
sampling API (StartSampling, RecordSample, EndSampling), the monitor
maintains actual_samples = neural_net_evaluations + cached_evaluations +
heuristic_evaluations.  The three direct helpers are excluded: they
increment only their bucket, not actual_samples. -/
theorem c2_counts_invariant (ops : List MonOp)
    (hops : ∀ op ∈ ops, op.isSampleApi = true) :
    CountsConsistent (monRun ops).metrics := by
  have main : ∀ (l : List MonOp) (m : Monitor),
      (∀ op ∈ l, op.isSampleApi = true) →
      CountsConsistent m.metrics →
      CountsConsistent (l.foldl monApply m).metrics := by
    intro l
    induction l with
    | nil => intro m _ h; simpa using h
    | cons op rest ih =>
        intro m hl h
        simp only [List.foldl_cons]
        exact ih _ (fun x hx => hl x (List.mem_cons_of_mem _ hx))
          (monApply_preserves_counts m op (hl op (List.mem_cons_self _ _)) h)
  exact main ops MonitorInit hops
    (by simp [MonitorInit, CountsConsistent, SamplingMetricsReset])

/-- Demonstration of c2_counts_invariant on a concrete session: start,
one heuristic sample, end. -/
theorem c2_counts_invariant_witness :
    CountsConsistent (monRun
      [MonOp.startSampling 2 0, MonOp.recordSample "heuristic" 1,
       MonOp.endSampling 3]).metrics := by
  apply c2_counts_invariant
  intro op hop
  fin_cases hop <;> rfl

/-- C2 as stated is false: a direct RecordNeuralNetEvaluation during an
active session increments the neural-net bucket but not actual_samples,
so after StartSampling(1); RecordNeuralNetEvaluation(2.0) the metrics have
actual_samples = 0 but bucket sum 1. -/
theorem c2_counterexample :
    ¬ CountsConsistent (monRun
      [MonOp.startSampling 1 0, MonOp.recordNeuralNetEvaluation 2]).metrics := by
  intro h
  simp only [monRun, List.foldl_cons, List.foldl_nil] at h
  simp [monApply, MonitorInit, SamplingMetricsReset, CountsConsistent] at h

/-- C8 (amended): after EndSampling on an enabled, active monitor,
avg_time_per_sample_ms equals total_time_ms / max(1, actual_samples)
whenever actual_samples > 0; when actual_samples = 0 the code stores 0
instead (diverging from the claimed formula when total_time_ms is not
zero). -/
theorem c8_avg_time_formula (m : Monitor) (now : ℚ)
    (hen : m.enabled = true) (hact : m.sampling_active = true) :
    (0 < (monApply m (.endSampling now)).metrics.actual_samples →
      (monApply m (.endSampling now)).metrics.avg_time_per_sample_ms =
        (monApply m (.endSampling now)).metrics.total_time_ms /
          ((max 1 (monApply m (.endSampling now)).metrics.actual_samples : ℤ) : ℚ))
    ∧ ((monApply m (.endSampling now)).metrics.actual_samples = 0 →
      (monApply m (.endSampling now)).metrics.avg_time_per_sample_ms = 0) := by
  have hcond : ¬ (m.enabled = false ∨ m.sampling_active = false) := by
    simp [hen, hact]
  simp only [monApply, if_neg hcond, CalculateDerivedMetrics]
  constructor
  · intro hpos
    rw [if_pos hpos, max_eq_right (by omega : (1 : ℤ) ≤ m.metrics.actual_samples)]
  · intro h0
    rw [if_neg (by omega)]

/-- Demonstration of c8_avg_time_formula on a concrete active monitor
state with 2 recorded samples. -/
theorem c8_avg_time_formula_witness :
    (0 < (monApply ⟨⟨4, 2, 1, 1, 0, 0, 0, 0, 0⟩, 0, true, true⟩
        (.endSampling 3)).metrics.actual_samples →
      (monApply ⟨⟨4, 2, 1, 1, 0, 0, 0, 0, 0⟩, 0, true, true⟩
        (.endSampling 3)).metrics.avg_time_per_sample_ms =
        (monApply ⟨⟨4, 2, 1, 1, 0, 0, 0, 0, 0⟩, 0, true, true⟩
          (.endSampling 3)).metrics.total_time_ms /
          ((max 1 (monApply ⟨⟨4, 2, 1, 1, 0, 0, 0, 0, 0⟩, 0, true, true⟩
            (.endSampling 3)).metrics.actual_samples : ℤ) : ℚ))
    ∧ ((monApply ⟨⟨4, 2, 1, 1, 0, 0, 0, 0, 0⟩, 0, true, true⟩
        (.endSampling 3)).metrics.actual_samples = 0 →
      (monApply ⟨⟨4, 2, 1, 1, 0, 0, 0, 0, 0⟩, 0, true, true⟩
        (.endSampling 3)).metrics.avg_time_per_sample_ms = 0) :=
  c8_avg_time_formula ⟨⟨4, 2, 1, 1, 0, 0, 0, 0, 0⟩, 0, true, true⟩ 3 rfl rfl

/-- C8 as stated is false at actual_samples = 0: a session started with 5
requested samples, ended 3 ms later with no sample recorded, stores
avg_time_per_sample_ms = 0, while total_time_ms / max(1, actual_samples)
is 3 / 1 = 3. -/
theorem c8_counterexample :
    (monRun [MonOp.startSampling 5 0, MonOp.endSampling 3]).metrics.avg_time_per_sample_ms ≠
      (monRun [MonOp.startSampling 5 0,
        MonOp.endSampling 3]).metrics.total_time_ms /
        ((max 1 (monRun [MonOp.startSampling 5 0,
          MonOp.endSampling 3]).metrics.actual_samples : ℤ) : ℚ) := by
  have h1 : (monRun [MonOp.startSampling 5 0,
      MonOp.endSampling 3]).metrics.avg_time_per_sample_ms = 0 := by
    simp [monRun, monApply, MonitorInit, SamplingMetricsReset, CalculateDerivedMetrics]
  have h2 : (monRun [MonOp.startSampling 5 0,
      MonOp.endSampling 3]).metrics.total_time_ms = 3 := by
    simp [monRun, monApply, MonitorInit, SamplingMetricsReset, CalculateDerivedMetrics]
  have h3 : (monRun [MonOp.startSampling 5 0,
      MonOp.endSampling 3]).metrics.actual_samples = 0 := by
    simp [monRun, monApply, MonitorInit, SamplingMetricsReset, CalculateDerivedMetrics]
  rw [h1, h2, h3, max_eq_left (by norm_num : (0 : ℤ) ≤ 1)]
  norm_num

lemma calculateSoftmax_length (scores : List FVal) (lambda : ℝ) :
    (CalculateSoftmax scores lambda).length = scores.length := by
  unfold CalculateSoftmax
  split
  · simp [UniformProbabilities]
  · simp

lemma calculateSoftmax_pos (scores : List FVal) (lambda : ℝ) (hne : scores ≠ [])
    {p : ℝ} (hp : p ∈ CalculateSoftmax scores lambda) : 0 < p := by
  unfold CalculateSoftmax at hp
  split at hp
  · have hlen : 0 < scores.length := List.length_pos.mpr hne
    have heq : p = 1 / (scores.length : ℝ) := by
      rw [UniformProbabilities] at hp
      exact List.eq_of_mem_replicate hp
    rw [heq]
    have : (0 : ℝ) < (scores.length : ℝ) := by exact_mod_cast hlen
    positivity
  · rcases List.mem_map.mp hp with ⟨s, _, rfl⟩
    exact Real.exp_pos _

/-- C3: CalculateSoftmax is total (and length-preserving; in C++, the
whole body is wrapped in try/catch mapping any exception to the uniform
fallback, so it never throws), and on every invalid input - empty scores,
any non-finite element, more than 1000000 elements, or lambda outside
[0.001, 10] - it returns the uniform distribution of the input's length:
1/n in every position, the empty vector for n = 0. -/
theorem c3_softmax_fallback (scores : List FVal) (lambda : ℝ) :
    ((CalculateSoftmax scores lambda).length = scores.length)
    ∧ ((scores = [] ∨ (∃ s ∈ scores, s.isFinite = false) ∨
        1000000 < scores.length ∨ lambda < 0.001 ∨ 10 < lambda) →
      CalculateSoftmax scores lambda =
        List.replicate scores.length (1 / (scores.length : ℝ))) := by
  refine ⟨calculateSoftmax_length scores lambda, fun h => ?_⟩
  have hcond : IsValidInput scores = false ∨ lambda < 0.001 ∨ 10 < lambda := by
    rcases h with h | h | h | h | h
    · subst h
      exact Or.inl rfl
    · refine Or.inl ?_
      have hall : scores.all FVal.isFinite = false := by
        rw [List.all_eq_false]
        rcases h with ⟨s, hs, hfin⟩
        exact ⟨s, hs, by simp [hfin]⟩
      simp [IsValidInput, hall]
    · refine Or.inl ?_
      have hdec : decide (scores.length ≤ 1000000) = false :=
        decide_eq_false (by omega)
      simp [IsValidInput, hdec]
    · exact Or.inr (Or.inl h)
    · exact Or.inr (Or.inr h)
  rw [CalculateSoftmax, if_pos hcond]
  rfl

/-- Demonstration of c3_softmax_fallback: the spec's fallback scenario,
scores [1, NaN, 3] with lambda 1, yields [1/3, 1/3, 1/3]. -/
theorem c3_softmax_fallback_witness :
    CalculateSoftmax [FVal.fin 1, FVal.nan, FVal.fin 3] 1 =
      [1 / 3, 1 / 3, 1 / 3] := by
  have h := (c3_softmax_fallback [FVal.fin 1, FVal.nan, FVal.fin 3] 1).2
    (Or.inr (Or.inl ⟨FVal.nan, by simp, rfl⟩))
  simpa [List.replicate] using h

lemma foldl_max_replicate (c : ℝ) : ∀ m : ℕ, List.foldl max c (List.replicate m c) = c := by
  intro m
  induction m with
  | zero => rfl
  | succ k ih => simpa [List.replicate_succ, max_self] using ih

lemma maxScore_replicate (n : ℕ) (c : ℝ) (hn : 1 ≤ n) :
    maxScore (List.replicate n c) = c := by
  cases n with
  | zero => omega
  | succ k =>
      rw [List.replicate_succ, maxScore]
      exact foldl_max_replicate c k

/-- C5: on identical scores with lambda in the accepted range, the softmax
is exactly uniform: every score cancels against the maximum, every scaled
score is 0, the sum of exponentials is n, and every output is
exp(-log n) = 1/n. -/
theorem c5_identical_scores (n : ℕ) (c lambda : ℝ) (hn : 1 ≤ n)
    (hn2 : n ≤ 1000000) (hl1 : 0.001 ≤ lambda) (hl2 : lambda ≤ 10) :
    CalculateSoftmax (List.replicate n (FVal.fin c)) lambda =
      List.replicate n (1 / (n : ℝ)) := by
  have hnpos : (0 : ℝ) < (n : ℝ) := by exact_mod_cast hn
  have hmap : List.replicate n (FVal.fin c) = (List.replicate n c).map FVal.fin := by
    rw [List.map_replicate]
  have hne2 : List.replicate n c ≠ [] := by
    apply List.ne_nil_of_length_pos
    rw [List.length_replicate]
    omega
  have hlen2 : (List.replicate n c).length ≤ 1000000 := by
    rw [List.length_replicate]
    exact hn2
  rw [hmap, calculateSoftmax_valid _ _ hne2 hlen2 hl1 hl2]
  rw [maxScore_replicate n c hn]
  have hclamp : clampExpArg ((c - c) * lambda) = 0 := by
    rw [sub_self, zero_mul, clampExpArg]
    rw [min_eq_right (by norm_num), max_eq_right (by norm_num)]
  rw [List.map_replicate, List.map_replicate, hclamp]
  have hLSE : CalculateLogSumExp (List.replicate n (0 : ℝ)) = Real.log n := by
    unfold CalculateLogSumExp
    rw [List.map_replicate, Real.exp_zero, List.sum_replicate, nsmul_eq_mul, mul_one]
    rw [if_neg (by linarith)]
  rw [hLSE, zero_sub, Real.exp_neg, Real.exp_log hnpos, one_div]

/-- Demonstration of c5_identical_scores at the claim's particular input:
scores [5, 5, 5, 5] with lambda 1 yield exactly [0.25, 0.25, 0.25, 0.25]. -/
theorem c5_identical_scores_witness :
    CalculateSoftmax [FVal.fin 5, FVal.fin 5, FVal.fin 5, FVal.fin 5] 1 =
      [0.25, 0.25, 0.25, 0.25] := by
  have h := c5_identical_scores 4 5 1 (by norm_num) (by norm_num)
    (by norm_num) (by norm_num)
  norm_num [List.replicate] at h
  rw [h]
  norm_num

/-- C4 (amended): for a finite, strictly ascending, non-empty scores
vector of accepted length, a lambda inside the accepted range
[0.001, 10], and no score driven into the lower clamp (every
(score - max) * lambda at least -700), the softmax probabilities are
strictly ascending.  Outside these conditions the claim fails: a positive
lambda outside [0.001, 10] triggers the uniform fallback, and scores far
enough below the maximum are clamped to equal scaled values. -/
theorem c4_strictly_ascending (scores : List ℝ) (lambda : ℝ)
    (hne : scores ≠ []) (hlen : scores.length ≤ 1000000)
    (hl1 : 0.001 ≤ lambda) (hl2 : lambda ≤ 10)
    (hsorted : List.Sorted (· < ·) scores)
    (hcl : ∀ x ∈ scores, -700 ≤ (x - maxScore scores) * lambda) :
    List.Sorted (· < ·) (CalculateSoftmax (scores.map FVal.fin) lambda) := by
  rw [calculateSoftmax_valid scores lambda hne hlen hl1 hl2]
  have hlam : 0 < lambda := lt_of_lt_of_le (by norm_num) hl1
  have hpair : List.Pairwise (· < ·) scores := hsorted
  rw [List.Sorted, List.pairwise_map]
  refine hpair.imp_of_mem ?_
  intro a b ha hb hab
  have hclampa : clampExpArg ((a - maxScore scores) * lambda) =
      (a - maxScore scores) * lambda :=
    clampExpArg_eq_self (hcl a ha)
      (le_trans (mul_nonpos_iff.mpr
        (Or.inr ⟨sub_nonpos.mpr (le_maxScore ha), le_of_lt hlam⟩))
        (by norm_num))
  have hclampb : clampExpArg ((b - maxScore scores) * lambda) =
      (b - maxScore scores) * lambda :=
    clampExpArg_eq_self (hcl b hb)
      (le_trans (mul_nonpos_iff.mpr
        (Or.inr ⟨sub_nonpos.mpr (le_maxScore hb), le_of_lt hlam⟩))
        (by norm_num))
  rw [hclampa, hclampb]
  exact Real.exp_lt_exp.mpr (sub_lt_sub_right
    (mul_lt_mul_of_pos_right (sub_lt_sub_right hab _) hlam) _)

/-- Demonstration of c4_strictly_ascending: scores [0, 1] with lambda 1
produce strictly ascending probabilities. -/
theorem c4_strictly_ascending_witness :
    List.Sorted (· < ·) (CalculateSoftmax [FVal.fin 0, FVal.fin 1] 1) := by
  have hms : maxScore [(0 : ℝ), 1] = 1 := by
    rw [maxScore, List.foldl_cons, List.foldl_nil]
    exact max_eq_right (by norm_num)
  have h := c4_strictly_ascending [0, 1] 1 (by simp) (by simp)
    (by norm_num) (by norm_num)
    (by rw [List.sorted_cons]; constructor
        · intro b hb
          rcases List.mem_singleton.mp hb with rfl
          norm_num
        · simp)
    (by intro x hx
        rw [hms]
        rcases List.mem_cons.mp hx with rfl | hx
        · norm_num
        · rcases List.mem_singleton.mp hx with rfl
          norm_num)
  simpa using h

/-- C4 as stated is false: at the strictly ascending scores
[-200, -100, 0] and the positive (and accepted) lambda 10, the first two
scaled scores -2000 and -1000 are both clamped to -700, so the first two
probabilities are equal and the output is not strictly ascending. -/
theorem c4_counterexample :
    List.Sorted (· < ·) [(-200 : ℝ), -100, 0] ∧ (0 : ℝ) < 10 ∧
    ¬ List.Sorted (· < ·)
      (CalculateSoftmax [FVal.fin (-200), FVal.fin (-100), FVal.fin 0] 10) := by
  have hms : maxScore [(-200 : ℝ), -100, 0] = 0 := by
    rw [maxScore, List.foldl_cons, List.foldl_cons, List.foldl_nil]
    rw [max_eq_right (by norm_num : (-200 : ℝ) ≤ -100)]
    exact max_eq_right (by norm_num)
  refine ⟨?_, by norm_num, ?_⟩
  · rw [List.sorted_cons]
    refine ⟨?_, ?_⟩
    · intro b hb
      rcases List.mem_cons.mp hb with rfl | hb
      · norm_num
      · rcases List.mem_singleton.mp hb with rfl
        norm_num
    · rw [List.sorted_cons]
      refine ⟨?_, by simp⟩
      intro b hb
      rcases List.mem_singleton.mp hb with rfl
      norm_num
  · have heq : [FVal.fin (-200 : ℝ), FVal.fin (-100), FVal.fin 0] =
        [(-200 : ℝ), -100, 0].map FVal.fin := by simp
    rw [heq, calculateSoftmax_valid [(-200 : ℝ), -100, 0] 10 (by simp) (by simp)
      (by norm_num) (by norm_num), hms]
    have hc1 : clampExpArg ((-200 - 0) * 10) = -700 := by
      rw [show ((-200 : ℝ) - 0) * 10 = -2000 by norm_num, clampExpArg]
      rw [min_eq_right (by norm_num : (-2000 : ℝ) ≤ 700)]
      exact max_eq_left (by norm_num)
    have hc2 : clampExpArg ((-100 - 0) * 10) = -700 := by
      rw [show ((-100 : ℝ) - 0) * 10 = -1000 by norm_num, clampExpArg]
      rw [min_eq_right (by norm_num : (-1000 : ℝ) ≤ 700)]
      exact max_eq_left (by norm_num)
    simp only [List.map_cons, List.map_nil, hc1, hc2]
    intro hsorted
    rw [List.sorted_cons] at hsorted
    have hlt := hsorted.1 _ (List.mem_cons_self _ _)
    exact lt_irrefl _ hlt

lemma prefixSum_zero (w : List ℝ) : prefixSum w 0 = 0 := by
  simp [prefixSum]

lemma prefixSum_cons_succ (x : ℝ) (xs : List ℝ) (j : ℕ) :
    prefixSum (x :: xs) (j + 1) = x + prefixSum xs j := by
  simp [prefixSum, List.take_succ_cons, List.sum_cons]

lemma prefixSum_nonneg (w : List ℝ) (hw : ∀ x ∈ w, 0 < x) (i : ℕ) :
    0 ≤ prefixSum w i :=
  List.sum_nonneg (fun x hx => le_of_lt (hw x (List.mem_of_mem_take hx)))

/-- The inverse-CDF walk lands in bucket i exactly when the draw value
lies in the half-open interval [prefixSum w i, prefixSum w i + w[i]); this
is the sense in which index i is drawn with probability proportional to
w[i]. -/
lemma invCDF_eq_iff : ∀ (w : List ℝ) (t : ℝ), (∀ x ∈ w, 0 < x) → 0 ≤ t →
    t < w.sum → ∀ i : ℕ,
    (invCDF w t = i ↔ (prefixSum w i ≤ t ∧ t < prefixSum w i + w.getD i 0)) := by
  intro w
  induction w with
  | nil =>
      intro t _ h0 hlt i
      simp only [List.sum_nil] at hlt
      linarith
  | cons x xs ih =>
      intro t hw h0 hlt i
      have hw' : ∀ y ∈ xs, 0 < y := fun y hy => hw y (List.mem_cons_of_mem _ hy)
      by_cases hx : t < x
      · simp only [invCDF, if_pos hx]
        cases i with
        | zero =>
            simp only [prefixSum_zero, List.getD_cons_zero, zero_add]
            exact ⟨fun _ => ⟨h0, hx⟩, fun _ => trivial⟩
        | succ j =>
            constructor
            · intro h
              exact absurd h (by omega)
            · rintro ⟨h1, _⟩
              exfalso
              rw [prefixSum_cons_succ] at h1
              have hps := prefixSum_nonneg xs hw' j
              linarith
      · simp only [invCDF, if_neg hx]
        have hxle : x ≤ t := not_lt.mp hx
        have h0' : 0 ≤ t - x := by linarith
        have hlt' : t - x < xs.sum := by
          rw [List.sum_cons] at hlt
          linarith
        have hiff := ih (t - x) hw' h0' hlt'
        cases i with
        | zero =>
            constructor
            · intro h
              exact absurd h (by omega)
            · rintro ⟨_, h2⟩
              exfalso
              rw [prefixSum_zero, List.getD_cons_zero, zero_add] at h2
              exact hx h2
        | succ j =>
            rw [prefixSum_cons_succ, List.getD_cons_succ]
            constructor
            · intro h
              have h' : invCDF xs (t - x) = j := by omega
              rcases (hiff j).mp h' with ⟨ha, hb⟩
              constructor <;> linarith
            · rintro ⟨ha, hb⟩
              have hj : prefixSum xs j ≤ t - x ∧
                  t - x < prefixSum xs j + xs.getD j 0 := by
                constructor <;> linarith
              have := (hiff j).mpr hj
              omega

lemma calculateSoftmax_ne_nil (scores : List FVal) (lambda : ℝ)
    (hne : scores ≠ []) : CalculateSoftmax scores lambda ≠ [] := by
  apply List.ne_nil_of_length_pos
  rw [calculateSoftmax_length]
  exact List.length_pos.mpr hne

/-- C1 (amended): for an enabled configuration and matching non-empty
inputs, the score-in SelectMove overload selects by weighted random draw
from the softmax distribution only in competitive mode: there the returned
move is the one at the drawn index, and the drawn index is i exactly when
the draw value u * sum lands in the i-th probability interval.  In
quantum-limit mode the overload instead returns the move of first maximal
probability, ignoring the random draw. -/
theorem c1_selection_rule (cfg : Config) (moves : List ℕ) (scores : List FVal)
    (u : ℝ) (hen : cfg.enabled = true) (hmv : moves ≠ []) (hsc : scores ≠ [])
    (hlen : moves.length = scores.length) (hu0 : 0 ≤ u) (hu1 : u < 1) :
    (cfg.sampling_mode = SamplingMode.kCompetitive →
      SelectMoveScored cfg moves scores u =
        moves[discreteDraw (CalculateSoftmax scores cfg.lambda) u]? ∧
      (∀ i : ℕ, discreteDraw (CalculateSoftmax scores cfg.lambda) u = i ↔
        (prefixSum (CalculateSoftmax scores cfg.lambda) i ≤
            u * (CalculateSoftmax scores cfg.lambda).sum ∧
          u * (CalculateSoftmax scores cfg.lambda).sum <
            prefixSum (CalculateSoftmax scores cfg.lambda) i +
              (CalculateSoftmax scores cfg.lambda).getD i 0)))
    ∧ (cfg.sampling_mode = SamplingMode.kQuantumLimit →
      SelectMoveScored cfg moves scores u =
        moves[argmaxIdx (CalculateSoftmax scores cfg.lambda)]?) := by
  have hcond1 : ¬ (cfg.enabled = false ∨ moves.isEmpty = true ∨
      scores.isEmpty = true) := by
    simp [hen, List.isEmpty_iff, hmv, hsc]
  have hcond2 : ¬ (moves.length ≠ scores.length) := not_ne_iff.mpr hlen
  constructor
  · intro hmode
    constructor
    · simp only [SelectMoveScored, if_neg hcond1, if_neg hcond2, if_pos hmode]
    · intro i
      have hppos : ∀ x ∈ CalculateSoftmax scores cfg.lambda, 0 < x :=
        fun x hx => calculateSoftmax_pos scores cfg.lambda hsc hx
      have hsum : 0 < (CalculateSoftmax scores cfg.lambda).sum :=
        List.sum_pos _ hppos (calculateSoftmax_ne_nil scores cfg.lambda hsc)
      have ht0 : 0 ≤ u * (CalculateSoftmax scores cfg.lambda).sum :=
        mul_nonneg hu0 (le_of_lt hsum)
      have ht1 : u * (CalculateSoftmax scores cfg.lambda).sum <
          (CalculateSoftmax scores cfg.lambda).sum := by
        have := mul_lt_mul_of_pos_right hu1 hsum
        simpa using this
      simpa only [discreteDraw] using
        invCDF_eq_iff (CalculateSoftmax scores cfg.lambda)
          (u * (CalculateSoftmax scores cfg.lambda).sum) hppos ht0 ht1 i
  · intro hmode
    have hmode' : ¬ (cfg.sampling_mode = SamplingMode.kCompetitive) := by
      rw [hmode]
      simp
    simp only [SelectMoveScored, if_neg hcond1, if_neg hcond2, if_neg hmode']

/-- Demonstration of c1_selection_rule at a concrete competitive
configuration, moves [10, 20], scores [0, 1] and draw value 0. -/
theorem c1_selection_rule_witness :
    (cfgCompetitive.sampling_mode = SamplingMode.kCompetitive →
      SelectMoveScored cfgCompetitive [10, 20] [FVal.fin 0, FVal.fin 1] 0 =
        [10, 20][discreteDraw
          (CalculateSoftmax [FVal.fin 0, FVal.fin 1] cfgCompetitive.lambda) 0]? ∧
      (∀ i : ℕ, discreteDraw
          (CalculateSoftmax [FVal.fin 0, FVal.fin 1] cfgCompetitive.lambda) 0 = i ↔
        (prefixSum (CalculateSoftmax [FVal.fin 0, FVal.fin 1] cfgCompetitive.lambda) i ≤
            0 * (CalculateSoftmax [FVal.fin 0, FVal.fin 1] cfgCompetitive.lambda).sum ∧
          0 * (CalculateSoftmax [FVal.fin 0, FVal.fin 1] cfgCompetitive.lambda).sum <
            prefixSum (CalculateSoftmax [FVal.fin 0, FVal.fin 1] cfgCompetitive.lambda) i +
              (CalculateSoftmax [FVal.fin 0, FVal.fin 1] cfgCompetitive.lambda).getD i 0)))
    ∧ (cfgCompetitive.sampling_mode = SamplingMode.kQuantumLimit →
      SelectMoveScored cfgCompetitive [10, 20] [FVal.fin 0, FVal.fin 1] 0 =
        [10, 20][argmaxIdx
          (CalculateSoftmax [FVal.fin 0, FVal.fin 1] cfgCompetitive.lambda)]?) :=
  c1_selection_rule cfgCompetitive [10, 20] [FVal.fin 0, FVal.fin 1] 0 rfl
    (by simp) (by simp) (by simp) (by norm_num) (by norm_num)

/-- C1 as stated is false for the quantum-limit sampling mode: with an
enabled quantum-limit configuration (lambda 1), moves [10, 20] and scores
[0, 1], the overload deterministically returns move 20 (the argmax), while
the weighted draw at draw value u = 0 selects index 0, i.e. move 10. -/
theorem c1_counterexample :
    cfgQuantum.enabled = true ∧ ((0 : ℝ) ≤ 0 ∧ (0 : ℝ) < 1) ∧
    SelectMoveScored cfgQuantum [10, 20] [FVal.fin 0, FVal.fin 1] 0 = some 20 ∧
    [10, 20][discreteDraw
      (CalculateSoftmax [FVal.fin 0, FVal.fin 1] cfgQuantum.lambda) 0]? = some 10 := by
  have hms : maxScore [(0 : ℝ), 1] = 1 := by
    rw [maxScore, List.foldl_cons, List.foldl_nil]
    exact max_eq_right (by norm_num)
  have heq : [FVal.fin (0 : ℝ), FVal.fin 1] = [(0 : ℝ), 1].map FVal.fin := by simp
  have hlam : cfgQuantum.lambda = 1 := rfl
  have hp : CalculateSoftmax [FVal.fin (0 : ℝ), FVal.fin 1] 1 =
      [Real.exp (-1 - CalculateLogSumExp [-1, 0]),
       Real.exp (0 - CalculateLogSumExp [-1, 0])] := by
    rw [heq, calculateSoftmax_valid [(0 : ℝ), 1] 1 (by simp) (by simp)
      (by norm_num) (by norm_num), hms]
    have hc1 : clampExpArg ((0 - 1) * 1) = -1 := by
      rw [show ((0 : ℝ) - 1) * 1 = -1 by norm_num, clampExpArg]
      rw [min_eq_right (by norm_num : (-1 : ℝ) ≤ 700)]
      exact max_eq_right (by norm_num)
    have hc2 : clampExpArg ((1 - 1) * 1) = 0 := by
      rw [show ((1 : ℝ) - 1) * 1 = 0 by norm_num, clampExpArg]
      rw [min_eq_right (by norm_num : (0 : ℝ) ≤ 700)]
      exact max_eq_right (by norm_num)
    simp only [List.map_cons, List.map_nil, hc1, hc2]
  have hab : Real.exp (-1 - CalculateLogSumExp [-1, 0]) <
      Real.exp (0 - CalculateLogSumExp [-1, 0]) :=
    Real.exp_lt_exp.mpr (by linarith)
  refine ⟨rfl, ⟨le_refl 0, by norm_num⟩, ?_, ?_⟩
  · have hcond1 : ¬ (cfgQuantum.enabled = false ∨
        ([10, 20] : List ℕ).isEmpty = true ∨
        ([FVal.fin (0 : ℝ), FVal.fin 1]).isEmpty = true) := by
      simp [cfgQuantum]
    have hcond2 : ¬ (([10, 20] : List ℕ).length ≠
        ([FVal.fin (0 : ℝ), FVal.fin 1]).length) := by simp
    have hmode : ¬ (cfgQuantum.sampling_mode = SamplingMode.kCompetitive) := by
      simp [cfgQuantum]
    simp only [SelectMoveScored, if_neg hcond1, if_neg hcond2, if_neg hmode]
    rw [hlam, hp]
    simp only [argmaxIdx, argmaxGo, if_pos hab]
    rfl
  · rw [hlam, hp, discreteDraw, zero_mul, invCDF,
      if_pos (Real.exp_pos (-1 - CalculateLogSumExp [-1, 0]))]
    rfl
